import Mathlib

/-!
Verification of `llm_logger.py` (class `LLMLogger`): a shallow embedding of
the producer path (`_ensure_dict`, `validate_interaction`, `log`), the
consumer path (`_process_queue`, `_create_tables`) and the lifecycle
(`close`), together with models of the external collaborators the module
calls (Python's `json` module, `uuid.uuid4`, and the sqlite3 insert
semantics for the statement text appearing in the source).

Thread interleaving is linearised: producer calls (`log`) append to the
queue at call time, and the worker's drain loop runs during `close`'s join
(the worker owns the storage connection exclusively, so this is a faithful
serialisation of any schedule for the properties proved here).
-/

set_option maxHeartbeats 1000000

namespace LlmLog

/-- Python runtime values in the scope the logger touches: `None`, booleans,
integers, strings, lists, string-keyed dicts, and `pyObj` standing for any
other object (hashable into a dict but not JSON-serialisable, e.g. a set). -/
inductive PyVal where
  | pyNone
  | pyBool (b : Bool)
  | pyInt (n : Int)
  | pyStr (s : String)
  | pyList (xs : List PyVal)
  | pyDict (kvs : List (String × PyVal))
  | pyObj

mutual

/-- Boolean equality on embedded Python values (structural). -/
def PyVal.beq : PyVal → PyVal → Bool
  | .pyNone, .pyNone => true
  | .pyBool a, .pyBool b => a == b
  | .pyInt a, .pyInt b => a == b
  | .pyStr a, .pyStr b => a == b
  | .pyList xs, .pyList ys => PyVal.beqList xs ys
  | .pyDict xs, .pyDict ys => PyVal.beqKVs xs ys
  | .pyObj, .pyObj => true
  | _, _ => false

/-- Boolean equality on lists of embedded Python values. -/
def PyVal.beqList : List PyVal → List PyVal → Bool
  | [], [] => true
  | a :: as, b :: bs => PyVal.beq a b && PyVal.beqList as bs
  | _, _ => false

/-- Boolean equality on string-keyed bindings. -/
def PyVal.beqKVs : List (String × PyVal) → List (String × PyVal) → Bool
  | [], [] => true
  | (k1, v1) :: as, (k2, v2) :: bs =>
      k1 == k2 && PyVal.beq v1 v2 && PyVal.beqKVs as bs
  | _, _ => false

end

instance : BEq PyVal := ⟨PyVal.beq⟩

mutual

theorem PyVal.beq_iff : ∀ a b : PyVal, PyVal.beq a b = true ↔ a = b
  | .pyNone, b => by cases b <;> simp [PyVal.beq]
  | .pyBool a, b => by cases b <;> simp [PyVal.beq]
  | .pyInt a, b => by cases b <;> simp [PyVal.beq]
  | .pyStr a, b => by cases b <;> simp [PyVal.beq]
  | .pyList xs, b => by
      cases b <;> simp [PyVal.beq]
      exact PyVal.beqList_iff xs _
  | .pyDict xs, b => by
      cases b <;> simp [PyVal.beq]
      exact PyVal.beqKVs_iff xs _
  | .pyObj, b => by cases b <;> simp [PyVal.beq]

theorem PyVal.beqList_iff : ∀ xs ys : List PyVal, PyVal.beqList xs ys = true ↔ xs = ys
  | [], ys => by cases ys <;> simp [PyVal.beqList]
  | x :: xs, ys => by
      cases ys <;> simp [PyVal.beqList]
      rw [PyVal.beq_iff, PyVal.beqList_iff]

theorem PyVal.beqKVs_iff :
    ∀ xs ys : List (String × PyVal), PyVal.beqKVs xs ys = true ↔ xs = ys
  | [], ys => by cases ys <;> simp [PyVal.beqKVs]
  | (k, v) :: xs, ys => by
      cases ys with
      | nil => simp [PyVal.beqKVs]
      | cons y ys =>
          obtain ⟨k2, v2⟩ := y
          simp [PyVal.beqKVs, Prod.ext_iff]
          rw [PyVal.beq_iff, PyVal.beqKVs_iff]

end

instance : DecidableEq PyVal := fun a b => decidable_of_iff _ (PyVal.beq_iff a b)

/-- Python exceptions that the embedded code can raise. -/
inductive PyErr where
  | valueError (msg : String)
  | typeError (msg : String)
  | attributeError (msg : String)
deriving DecidableEq

/-- Python truthiness (`bool(x)`) for the embedded value universe. -/
def truthy : PyVal → Bool
  | .pyNone => false
  | .pyBool b => b
  | .pyInt n => n != 0
  | .pyStr s => s != ""
  | .pyList xs => !xs.isEmpty
  | .pyDict kvs => !kvs.isEmpty
  | .pyObj => true

/-- `needle in hay` check on character lists (Python `str.__contains__`). -/
def listStartsWith : List Char → List Char → Bool
  | [], _ => true
  | _ :: _, [] => false
  | a :: as, b :: bs => a == b && listStartsWith as bs

/-- Substring occurrence test on character lists. -/
def listHasSub (n : List Char) : List Char → Bool
  | [] => listStartsWith n []
  | c :: t => listStartsWith n (c :: t) || listHasSub n t

/-- Python's `in` operator, `k in x`, for a string key `k`: key membership
for dicts, element membership for lists, substring test for strings; raises
`TypeError` for non-iterable values (`None`, ints, bools, opaque objects). -/
def pyContains (k : String) : PyVal → Except PyErr Bool
  | .pyDict kvs => .ok (kvs.any (fun p => p.1 == k))
  | .pyList xs => .ok (xs.any (fun v => v == PyVal.pyStr k))
  | .pyStr s => .ok (listHasSub k.data s.data)
  | _ => .error (.typeError "argument of type is not iterable")

/-- Python's `x.get(k)` for dicts (first binding wins); raises
`AttributeError` on any non-dict receiver. -/
def pyGet (x : PyVal) (k : String) : Except PyErr (Option PyVal) :=
  match x with
  | .pyDict kvs => .ok ((kvs.find? (fun p => p.1 == k)).map (fun p => p.2))
  | _ => .error (.attributeError "object has no attribute get")

/-! ### The durable text encoding (model of `json.dumps` / `json.loads`)

Modelled from the spec: the repository calls Python's `json` module (an
external collaborator, not part of `src/`) to "serialize request/response
data to JSON" and to parse string inputs.  The model below is a JSON
encoder over `PyVal` with `json.dumps`'s default separators (`", "` between
items, `": "` after keys) and backslash escaping of quotes, backslashes and
the common control characters, plus a recursive-descent decoder.
`pyObj` (a non-JSON-serialisable object) makes `dumps` fail, mirroring the
`TypeError` that `json.dumps` raises. -/

/-- The decimal digit character for `d < 10`. -/
def digitChar (d : Nat) : Char :=
  match d with
  | 0 => '0' | 1 => '1' | 2 => '2' | 3 => '3' | 4 => '4'
  | 5 => '5' | 6 => '6' | 7 => '7' | 8 => '8' | 9 => '9'
  | _ => '0'

/-- Big-endian decimal digits, fuel-driven so that the kernel can evaluate
it (the fuel strictly dominates the number of digits). -/
def natCharsGo : Nat → Nat → List Char → List Char
  | 0, _, acc => acc
  | fuel + 1, n, acc =>
    if n < 10 then digitChar n :: acc
    else natCharsGo fuel (n / 10) (digitChar (n % 10) :: acc)

/-- Big-endian decimal digits of a natural number (no leading zeros). -/
def natChars (n : Nat) : List Char := natCharsGo (n + 1) n []

/-- Decimal rendering of a Python integer (`repr` of an `int`). -/
def intChars (n : Int) : List Char :=
  if n < 0 then '-' :: natChars (-n).toNat else natChars n.toNat

/-- JSON escaping of one character. -/
def escChar (c : Char) : List Char :=
  if c = '"' then ['\\', '"']
  else if c = '\\' then ['\\', '\\']
  else if c = '\n' then ['\\', 'n']
  else if c = '\t' then ['\\', 't']
  else if c = '\r' then ['\\', 'r']
  else [c]

/-- JSON escaping of a character list. -/
def escChars : List Char → List Char
  | [] => []
  | c :: cs => escChar c ++ escChars cs

mutual

/-- JSON encoding of a `PyVal`; `none` models `json.dumps` raising
`TypeError` on a non-serialisable value. -/
def encodeVal : PyVal → Option (List Char)
  | .pyNone => some ['n', 'u', 'l', 'l']
  | .pyBool true => some ['t', 'r', 'u', 'e']
  | .pyBool false => some ['f', 'a', 'l', 's', 'e']
  | .pyInt n => some (intChars n)
  | .pyStr s => some ('"' :: (escChars s.data ++ ['"']))
  | .pyList [] => some ['[', ']']
  | .pyList (x :: xs) =>
      match encodeVal x, encodeElems xs with
      | some cx, some cxs => some ('[' :: (cx ++ cxs ++ [']']))
      | _, _ => none
  | .pyDict [] => some ['\x7b', '\x7d']
  | .pyDict ((k, v) :: kvs) =>
      match encodeVal v, encodeMems kvs with
      | some cv, some cms =>
          some ('\x7b' :: '"' :: (escChars k.data ++
            '"' :: ':' :: ' ' :: (cv ++ cms ++ ['\x7d'])))
      | _, _ => none
  | .pyObj => none

/-- Encoding of the second and later list items, each preceded by `", "`. -/
def encodeElems : List PyVal → Option (List Char)
  | [] => some []
  | x :: xs =>
      match encodeVal x, encodeElems xs with
      | some cx, some cxs => some (',' :: ' ' :: (cx ++ cxs))
      | _, _ => none

/-- Encoding of the second and later dict members, each preceded by `", "`. -/
def encodeMems : List (String × PyVal) → Option (List Char)
  | [] => some []
  | (k, v) :: kvs =>
      match encodeVal v, encodeMems kvs with
      | some cv, some cms =>
          some (',' :: ' ' :: '"' :: (escChars k.data ++
            '"' :: ':' :: ' ' :: (cv ++ cms)))
      | _, _ => none

end

/-- `json.dumps` with default options, as a total function into `Option`
(`none` models the `TypeError` raised on non-serialisable input). -/
def dumps (x : PyVal) : Option String := (encodeVal x).map String.mk

/-- Consume an expected literal character sequence. -/
def expectChars : List Char → List Char → Option (List Char)
  | [], s => some s
  | _ :: _, [] => none
  | c :: cs, d :: ds => if c = d then expectChars cs ds else none

/-- Inverse of `escChar` on the character following a backslash. -/
def unescChar (c : Char) : Option Char :=
  if c = '"' then some '"'
  else if c = '\\' then some '\\'
  else if c = 'n' then some '\n'
  else if c = 't' then some '\t'
  else if c = 'r' then some '\r'
  else none

/-- Scan a JSON string body (after the opening quote) up to the closing
quote, undoing escapes; returns the decoded characters and the rest. -/
def parseStr : List Char → Option (List Char × List Char)
  | [] => none
  | c :: rest =>
    if c = '"' then some ([], rest)
    else if c = '\\' then
      match rest with
      | [] => none
      | e :: rest2 =>
        match unescChar e with
        | some u => (parseStr rest2).map (fun p => (u :: p.1, p.2))
        | none => none
    else (parseStr rest).map (fun p => (c :: p.1, p.2))

/-- Consume a maximal run of decimal digits, accumulating their value. -/
def parseDigits : List Char → Nat → Nat × List Char
  | [], acc => (acc, [])
  | c :: rest, acc =>
    if c.isDigit then parseDigits rest (acc * 10 + (c.toNat - 48))
    else (acc, c :: rest)

/-- Parse a JSON integer (optional minus sign, then digits). -/
def parseNum (s : List Char) : Option (Int × List Char) :=
  match s with
  | [] => none
  | c :: rest =>
    if c = '-' then
      match rest with
      | [] => none
      | d :: rest2 =>
        if d.isDigit then
          let p := parseDigits (d :: rest2) 0
          some (-(p.1 : Int), p.2)
        else none
    else if c.isDigit then
      let p := parseDigits (c :: rest) 0
      some ((p.1 : Int), p.2)
    else none

mutual

/-- Recursive-descent JSON value parser; the fuel bounds nesting depth and
element counts and is spent one unit per value or element boundary. -/
def parseVal : Nat → List Char → Option (PyVal × List Char)
  | 0, _ => none
  | fuel + 1, s =>
    match s with
    | [] => none
    | c :: rest =>
      if c = 'n' then (expectChars ['u', 'l', 'l'] rest).map (fun r => (.pyNone, r))
      else if c = 't' then (expectChars ['r', 'u', 'e'] rest).map (fun r => (.pyBool true, r))
      else if c = 'f' then (expectChars ['a', 'l', 's', 'e'] rest).map (fun r => (.pyBool false, r))
      else if c = '"' then (parseStr rest).map (fun p => (.pyStr (String.mk p.1), p.2))
      else if c = '[' then
        match rest with
        | [] => none
        | d :: rest2 =>
          if d = ']' then some (.pyList [], rest2)
          else
            match parseElems fuel (d :: rest2) with
            | some (vs, r) => some (.pyList vs, r)
            | none => none
      else if c = '\x7b' then
        match rest with
        | [] => none
        | d :: rest2 =>
          if d = '\x7d' then some (.pyDict [], rest2)
          else
            match parseMems fuel (d :: rest2) with
            | some (ms, r) => some (.pyDict ms, r)
            | none => none
      else (parseNum (c :: rest)).map (fun p => (.pyInt p.1, p.2))

/-- Parse one or more `", "`-separated array elements up to `]`. -/
def parseElems : Nat → List Char → Option (List PyVal × List Char)
  | 0, _ => none
  | fuel + 1, s =>
    match parseVal fuel s with
    | none => none
    | some (v, r) =>
      match r with
      | ']' :: r2 => some ([v], r2)
      | ',' :: ' ' :: r2 =>
        match parseElems fuel r2 with
        | some (vs, r3) => some (v :: vs, r3)
        | none => none
      | _ => none

/-- Parse one or more `", "`-separated object members up to the closing
brace. -/
def parseMems : Nat → List Char → Option (List (String × PyVal) × List Char)
  | 0, _ => none
  | fuel + 1, s =>
    match s with
    | '"' :: r0 =>
      match parseStr r0 with
      | none => none
      | some (kcs, r1) =>
        match r1 with
        | ':' :: ' ' :: r2 =>
          match parseVal fuel r2 with
          | none => none
          | some (v, r3) =>
            match r3 with
            | '\x7d' :: r4 => some ([(String.mk kcs, v)], r4)
            | ',' :: ' ' :: r4 =>
              match parseMems fuel r4 with
              | some (ms, r5) => some ((String.mk kcs, v) :: ms, r5)
              | none => none
            | _ => none
        | _ => none
    | _ => none

end

/-- `json.loads`: parse the whole string as one JSON value; `none` models
the `JSONDecodeError` raised on malformed or trailing input. -/
def loads (s : String) : Option PyVal :=
  match parseVal (s.data.length + 1) s.data with
  | some (v, []) => some v
  | _ => Option.none

/-! ### Model of `str(uuid.uuid4())`

Modelled from the spec: `uuid.uuid4` is an external collaborator (Python
standard library).  A version-4 UUID draws 122 random bits; the remaining
6 bits are the fixed version nibble (`4`) and the fixed top two bits of the
variant digit.  The generator is embedded as a function of its 122-bit
random seed, rendering the canonical 8-4-4-4-12 hyphenated lowercase hex
form. -/

/-- Lowercase hexadecimal digit characters (defaulting above 15). -/
def hexChar (d : Nat) : Char :=
  match d with
  | 0 => '0' | 1 => '1' | 2 => '2' | 3 => '3' | 4 => '4'
  | 5 => '5' | 6 => '6' | 7 => '7' | 8 => '8' | 9 => '9'
  | 10 => 'a' | 11 => 'b' | 12 => 'c' | 13 => 'd' | 14 => 'e'
  | _ => 'f'

/-- Fixed-width big-endian hexadecimal rendering of `v` (low `w` digits). -/
def toHexBE : Nat → Nat → List Char
  | 0, _ => []
  | w + 1, v => toHexBE w (v / 16) ++ [hexChar (v % 16)]

/-- `str(uuid.uuid4())` as a function of the 122-bit random seed: the
canonical hyphenated form `xxxxxxxx-xxxx-4xxx-yxxx-xxxxxxxxxxxx` where `y`
has its top two bits fixed to `10`. -/
def uuid4 (seed : Fin (2 ^ 122)) : String :=
  let r2 := seed.val % 4
  let v := seed.val / 4
  let g5 := v % 16 ^ 12
  let v1 := v / 16 ^ 12
  let g4 := v1 % 16 ^ 3
  let v2 := v1 / 16 ^ 3
  let g3 := v2 % 16 ^ 3
  let v3 := v2 / 16 ^ 3
  let g2 := v3 % 16 ^ 4
  let g1 := v3 / 16 ^ 4
  String.mk (toHexBE 8 g1 ++ '-' ::
    (toHexBE 4 g2 ++ '-' :: '4' ::
      (toHexBE 3 g3 ++ '-' :: hexChar (8 + r2) ::
        (toHexBE 3 g4 ++ '-' :: toHexBE 12 g5))))

/-! ### The logger: data model, producer path, consumer path, lifecycle -/

/-- The `log_entry` dict that `log` builds and enqueues. -/
structure Record where
  interaction_id : PyVal
  timestamp : String
  model : PyVal
  request_data : String
  response_data : String
  token_usage : PyVal
deriving DecidableEq

/-- One stored row of the `interactions` table (all five columns TEXT). -/
structure Row where
  interaction_id : String
  timestamp : String
  model : String
  request_data : String
  response_data : String
deriving DecidableEq

/-- sqlite3 error classes distinguished by `_process_queue`'s handlers. -/
inductive SqlError where
  | operational (msg : String)
  | programming (msg : String)
  | integrity (msg : String)
deriving DecidableEq

/-- Outcome of the worker's startup (`sqlite3.connect` + `_create_tables`):
either both succeed, or the connection fails, or table creation fails (the
message is the sqlite error text). -/
inductive InitResult where
  | ok
  | connectFail (msg : String)
  | createFail (msg : String)
deriving DecidableEq

/-- Linearised state of one `LLMLogger` instance plus its database file:
the FIFO `log_queue`, the `stop_event` flag, whether the worker thread has
finished, the stored rows, and the environment-determined startup outcome. -/
structure SysState where
  queue : List Record
  stopped : Bool
  workerDone : Bool
  rows : List Row
  init : InitResult
deriving DecidableEq

/-- The `interactions` schema columns created by `_create_tables`. -/
def interactionsColumns : List String :=
  ["interaction_id", "timestamp", "model", "request_data", "response_data"]

/-- The columns named in `_process_queue`'s INSERT statement text. -/
def insertColumns : List String :=
  ["interaction_id", "timestamp", "model", "request_data", "response_data",
   "prompt_tokens"]

/-- Number of `?` placeholders in the INSERT statement (`VALUES (?, ?, ?, ?, ?, ?)`). -/
def insertPlaceholderCount : Nat := 6

/-- SQLite TEXT-affinity conversion of a bound Python value. -/
def sqlText : PyVal → String
  | .pyStr s => s
  | .pyInt n => toString n
  | .pyBool b => if b then "1" else "0"
  | _ => ""

/-- The five parameters `_process_queue` binds for the insert. -/
def insertParams (e : Record) : List PyVal :=
  [e.interaction_id, .pyStr e.timestamp, e.model,
   .pyStr e.request_data, .pyStr e.response_data]

/-- `cursor.execute` on the insert statement: preparation fails when the
statement names a column absent from the schema (sqlite
`OperationalError`); binding fails when the supplied parameter count
differs from the placeholder count (`ProgrammingError`); a duplicate
primary key raises `IntegrityError`; otherwise the row is appended. -/
def executeInsert (rows : List Row) (e : Record) : Except SqlError (List Row) :=
  if !(insertColumns.all (fun c => interactionsColumns.contains c)) then
    .error (.operational "table interactions has no column named prompt_tokens")
  else if (insertParams e).length != insertPlaceholderCount then
    .error (.programming "Incorrect number of bindings supplied")
  else if rows.any (fun r => r.interaction_id == sqlText e.interaction_id) then
    .error (.integrity "UNIQUE constraint failed: interactions.interaction_id")
  else
    .ok (rows ++ [{ interaction_id := sqlText e.interaction_id,
                    timestamp := e.timestamp, model := sqlText e.model,
                    request_data := e.request_data,
                    response_data := e.response_data }])

/-- One iteration of `_process_queue`'s drain loop on a dequeued entry:
attempt the insert and commit; sqlite errors are logged and swallowed. -/
def processEntry (rows : List Row) (e : Record) : List Row × List String :=
  match executeInsert rows e with
  | .ok rows2 => (rows2, [])
  | .error (.integrity m) => (rows, ["Integrity error logging interaction: " ++ m])
  | .error (.operational m) => (rows, ["Database error logging interaction: " ++ m])
  | .error (.programming m) => (rows, ["Database error logging interaction: " ++ m])

/-- The drain loop of `_process_queue`, consuming entries in FIFO order. -/
def drainQueue : List Record → List Row → List Row × List String
  | [], rows => (rows, [])
  | e :: q, rows =>
    let p := processEntry rows e
    let r := drainQueue q p.1
    (r.1, p.2 ++ r.2)

/-- `_process_queue`: connect and create tables; on a sqlite error during
startup, log and return without draining (the `raise` in `_create_tables`
lands in the same `except` clause after `_create_tables`'s own
diagnostic); otherwise drain until the stop event is set and the queue is
empty, then close the connection.  Linearised: invoked at `close`'s join,
it consumes everything enqueued so far. -/
def _process_queue (s : SysState) : SysState × List String :=
  match s.init with
  | .connectFail m =>
      ({ s with workerDone := true }, ["Database connection failed: " ++ m])
  | .createFail m =>
      ({ s with workerDone := true },
        ["Failed to create tables: " ++ m, "Database connection failed: " ++ m])
  | .ok =>
      let p := drainQueue s.queue s.rows
      ({ s with queue := [], rows := p.1, workerDone := true }, p.2)

/-- First key of `keys` failing Python's `key not in obj` test; propagates
whatever `in` raises on a non-container. -/
def firstMissing (obj : PyVal) : List String → Except PyErr (Option String)
  | [] => .ok Option.none
  | k :: ks => do
    let c ← pyContains k obj
    if c then firstMissing obj ks else .ok (some k)

def required_request_keys : List String := ["model", "messages"]

def required_response_keys : List String :=
  ["id", "object", "created", "model", "choices", "usage"]

/-- `validate_interaction`: check the required request keys then the
required response keys, returning `false` plus a diagnostic naming the
first missing key, or `true` when all are present.  Presence only. -/
def validate_interaction (request response : PyVal) :
    Except PyErr (Bool × List String) := do
  match ← firstMissing request required_request_keys with
  | some k => .ok (false, ["Missing key in request: " ++ k])
  | none =>
    match ← firstMissing response required_response_keys with
    | some k => .ok (false, ["Missing key in response: " ++ k])
    | none => .ok (true, [])

/-- `_ensure_dict`: strings are JSON-parsed (`ValueError` on parse failure;
note the parsed value is returned without checking that it is a dict);
dicts pass through; anything else raises `TypeError`. -/
def _ensure_dict (data : PyVal) : Except PyErr PyVal :=
  match data with
  | .pyStr s =>
    match loads s with
    | some v => .ok v
    | none => .error (.valueError "String input is not valid JSON")
  | .pyDict kvs => .ok (.pyDict kvs)
  | _ => .error (.typeError "Data must be a dictionary or a JSON-formatted string.")

/-- The exception classes named in `log`'s `except (ValueError, TypeError)`. -/
def caughtByLog : PyErr → Bool
  | .valueError _ => true
  | .typeError _ => true
  | .attributeError _ => false

/-- `LLMLogger.log`: normalise both inputs (that `try` catches only
`ValueError`/`TypeError`), validate, derive `interaction_id` via
`response_dict.get("id") or str(uuid.uuid4())`, extract and require a
truthy `model`, timestamp, serialise both payloads, extract `usage`,
build the entry and enqueue it.  The result is `.error` exactly when an
exception escapes to the caller; otherwise the new state is paired with
the diagnostics written to the sink during the call.  `uuid.uuid4`'s
random draw and `datetime.utcnow` are passed in as `uuidSeed` and `now`. -/
def log (uuidSeed : Fin (2 ^ 122)) (now : String) (s : SysState)
    (request response : PyVal) : Except PyErr (SysState × List String) :=
  match (do
      let rq ← _ensure_dict request
      let rs ← _ensure_dict response
      pure (rq, rs) : Except PyErr (PyVal × PyVal)) with
  | .error e =>
    if caughtByLog e then .ok (s, ["Error processing input data"])
    else .error e
  | .ok (request_dict, response_dict) => do
    let v ← validate_interaction request_dict response_dict
    if !v.1 then
      .ok (s, v.2 ++ ["Invalid interaction data. Skipping logging."])
    else do
      let idOpt ← pyGet response_dict "id"
      let modelOpt ← pyGet response_dict "model"
      if !truthy (modelOpt.getD .pyNone) then
        .ok (s, v.2 ++ ["Model name not found in response. Skipping logging."])
      else
        match dumps request_dict, dumps response_dict with
        | some request_json, some response_json => do
          let usageOpt ← pyGet response_dict "usage"
          .ok ({ s with queue := s.queue ++
              [{ interaction_id :=
                   if truthy (idOpt.getD .pyNone) then idOpt.getD .pyNone
                   else .pyStr (uuid4 uuidSeed),
                 timestamp := now, model := modelOpt.getD .pyNone,
                 request_data := request_json, response_data := response_json,
                 token_usage := usageOpt.getD (.pyDict []) }] }, v.2)
        | _, _ =>
          .ok (s, v.2 ++ ["Error serializing data to JSON"])

/-- `LLMLogger.close`: set the stop event and join the worker thread.
Joining an already-finished worker returns immediately; otherwise the
worker's remaining run (drain until stopped and empty, then close the
connection) completes during the join. -/
def close (s : SysState) : SysState × List String :=
  let s1 := { s with stopped := true }
  if s1.workerDone then (s1, []) else _process_queue s1

/-- The three possible outcomes of one `log` call, abstracted from the
logger state: an exception escaping to the caller, a diagnosed silent
abort, or the construction of one entry to enqueue. -/
inductive LogOutcome where
  | raise (e : PyErr)
  | reject (msgs : List String)
  | accept (entry : Record) (msgs : List String)
deriving DecidableEq

/-- The outcome of `log`, which depends only on the call's inputs (and the
uuid draw and clock), never on the logger's state — `log` performs no
lifecycle-state check.  `log_eq_outcome` proves this mirrors `log`. -/
def logOutcome (uuidSeed : Fin (2 ^ 122)) (now : String)
    (request response : PyVal) : LogOutcome :=
  match (do
      let rq ← _ensure_dict request
      let rs ← _ensure_dict response
      pure (rq, rs) : Except PyErr (PyVal × PyVal)) with
  | .error e =>
    if caughtByLog e then .reject ["Error processing input data"] else .raise e
  | .ok (request_dict, response_dict) =>
    match validate_interaction request_dict response_dict with
    | .error e => .raise e
    | .ok v =>
      if !v.1 then
        .reject (v.2 ++ ["Invalid interaction data. Skipping logging."])
      else
        match pyGet response_dict "id" with
        | .error e => .raise e
        | .ok idOpt =>
          match pyGet response_dict "model" with
          | .error e => .raise e
          | .ok modelOpt =>
            if !truthy (modelOpt.getD .pyNone) then
              .reject (v.2 ++ ["Model name not found in response. Skipping logging."])
            else
              match dumps request_dict, dumps response_dict with
              | some request_json, some response_json =>
                match pyGet response_dict "usage" with
                | .error e => .raise e
                | .ok usageOpt =>
                  .accept
                    { interaction_id :=
                        if truthy (idOpt.getD .pyNone) then idOpt.getD .pyNone
                        else .pyStr (uuid4 uuidSeed),
                      timestamp := now, model := modelOpt.getD .pyNone,
                      request_data := request_json,
                      response_data := response_json,
                      token_usage := usageOpt.getD (.pyDict []) } v.2
              | _, _ => .reject (v.2 ++ ["Error serializing data to JSON"])

/-! ### Auxiliary definitions used by the statements and proofs -/

/-- `true` when the list is empty or starts with a non-digit (used to state
that the JSON parser's greedy number scan stops where intended). -/
def headNotDigit : List Char → Bool
  | [] => true
  | c :: _ => !c.isDigit

mutual

/-- Parser fuel sufficient for a value produced by the encoder. -/
def needVal : PyVal → Nat
  | .pyList xs => needElems xs + 1
  | .pyDict kvs => needMems kvs + 1
  | _ => 1

/-- Parser fuel sufficient for a list's elements. -/
def needElems : List PyVal → Nat
  | [] => 1
  | x :: xs => max (needVal x) (needElems xs) + 1

/-- Parser fuel sufficient for a dict's members. -/
def needMems : List (String × PyVal) → Nat
  | [] => 1
  | (_, v) :: kvs => max (needVal v) (needMems kvs) + 1

end

/-- Whether a Python value is a `str`. -/
def isStrVal : PyVal → Bool
  | .pyStr _ => true
  | _ => false

/-- A concrete 122-bit seed for instantiations. -/
def seed0 : Fin (2 ^ 122) := ⟨0, by norm_num⟩

/-- The state of a freshly constructed logger over an empty database whose
storage startup succeeds. -/
def st0 : SysState :=
  { queue := [], stopped := false, workerDone := false, rows := [], init := .ok }

/-- The example request of spec §8: `{"model": "gpt-x", "messages": [...]}`. -/
def reqEx : PyVal := .pyDict [("model", .pyStr "gpt-x"), ("messages", .pyList [])]

/-- The example response of spec §8. -/
def respEx : PyVal := .pyDict
  [("id", .pyStr "abc"), ("object", .pyStr "chat.completion"),
   ("created", .pyInt 1), ("model", .pyStr "gpt-x"), ("choices", .pyList []),
   ("usage", .pyDict [("prompt_tokens", .pyInt 5)])]

/-- A response whose `id` field is the (truthy) integer `123`. -/
def respIdNum : PyVal := .pyDict
  [("id", .pyInt 123), ("object", .pyStr "chat.completion"),
   ("created", .pyInt 1), ("model", .pyStr "gpt-x"), ("choices", .pyList []),
   ("usage", .pyDict [])]

/-- A response with all required keys but an empty `model`. -/
def respNoModel : PyVal := .pyDict
  [("id", .pyStr "abc"), ("object", .pyStr "chat.completion"),
   ("created", .pyInt 1), ("model", .pyStr ""), ("choices", .pyList []),
   ("usage", .pyDict [])]

/-- A response with all required keys but an empty (falsy) `id`. -/
def respEmptyId : PyVal := .pyDict
  [("id", .pyStr ""), ("object", .pyStr "chat.completion"),
   ("created", .pyInt 1), ("model", .pyStr "gpt-x"), ("choices", .pyList []),
   ("usage", .pyDict [])]

/-- A concrete already-built record, used to instantiate worker-side
statements. -/
def recX : Record :=
  { interaction_id := PyVal.pyStr "x", timestamp := "T",
    model := PyVal.pyStr "m", request_data := "r", response_data := "p",
    token_usage := PyVal.pyDict [] }

/-- A logger state whose storage connection failed at worker startup, with
one record already enqueued. -/
def stFail : SysState :=
  { queue := [recX], stopped := false, workerDone := false, rows := [],
    init := .connectFail "disk I/O error" }

/-! ### Roundtrip of the durable encoding: decimal numbers -/

theorem digitChar_isDigit (d : Nat) (h : d < 10) : (digitChar d).isDigit = true := by
  interval_cases d <;> decide

theorem digitChar_val (d : Nat) (h : d < 10) : (digitChar d).toNat - 48 = d := by
  interval_cases d <;> decide

theorem natCharsGo_spec : ∀ (fuel n : Nat) (acc : List Char),
    n < 10 ^ fuel → 1 ≤ fuel →
    ∃ ds, natCharsGo fuel n acc = ds ++ acc ∧ ds ≠ [] ∧
      (∀ c ∈ ds, c.isDigit = true) ∧
      ∀ a, ds.foldl (fun x c => x * 10 + (c.toNat - 48)) a =
        a * 10 ^ ds.length + n := by
  intro fuel
  induction fuel with
  | zero => intro n acc _ hf; omega
  | succ f ih =>
      intro n acc hn _
      by_cases h10 : n < 10
      · refine ⟨[digitChar n], by simp [natCharsGo, h10], by simp, ?_, ?_⟩
        · intro c hc
          simp only [List.mem_singleton] at hc
          subst hc
          exact digitChar_isDigit n h10
        · intro a
          simp [digitChar_val n h10]
      · have hf1 : 1 ≤ f := by
          by_contra hh
          have hf0 : f = 0 := by omega
          subst hf0
          norm_num at hn
          omega
        have hdiv : n / 10 < 10 ^ f := by
          rw [Nat.div_lt_iff_lt_mul (by omega)]
          rw [pow_succ] at hn
          exact hn
        obtain ⟨ds, hgo, hne, hdig, hfold⟩ :=
          ih (n / 10) (digitChar (n % 10) :: acc) hdiv hf1
        refine ⟨ds ++ [digitChar (n % 10)], ?_, by simp, ?_, ?_⟩
        · rw [natCharsGo, if_neg h10, hgo, List.append_assoc,
            List.singleton_append]
        · intro c hc
          rw [List.mem_append] at hc
          rcases hc with hc | hc
          · exact hdig c hc
          · simp only [List.mem_singleton] at hc
            subst hc
            exact digitChar_isDigit _ (Nat.mod_lt _ (by omega))
        · intro a
          rw [List.foldl_append, hfold, List.length_append]
          simp only [List.foldl_cons, List.foldl_nil, List.length_cons,
            List.length_nil]
          rw [digitChar_val _ (Nat.mod_lt _ (by omega))]
          have hp : 10 ^ (ds.length + (0 + 1)) = 10 ^ ds.length * 10 := by
            rw [Nat.add_comm, Nat.pow_add]
            ring
          rw [hp]
          have hdm := Nat.div_add_mod n 10
          generalize (10 : Nat) ^ ds.length = L at *
          have := Nat.mod_lt n (show 0 < 10 by omega)
          nlinarith

theorem natChars_spec (n : Nat) :
    ∃ ds, natChars n = ds ∧ ds ≠ [] ∧ (∀ c ∈ ds, c.isDigit = true) ∧
      ∀ a, ds.foldl (fun x c => x * 10 + (c.toNat - 48)) a =
        a * 10 ^ ds.length + n := by
  have hn : n < 10 ^ (n + 1) := by
    have h1 : n < 10 ^ n := Nat.lt_pow_self (by omega) n
    have h2 : 10 ^ n ≤ 10 ^ (n + 1) :=
      Nat.pow_le_pow_right (by omega) (by omega)
    omega
  obtain ⟨ds, hgo, hne, hdig, hfold⟩ := natCharsGo_spec (n + 1) n [] hn (by omega)
  exact ⟨ds, by rw [natChars, hgo, List.append_nil], hne, hdig, hfold⟩

theorem natChars_digits (n : Nat) : ∀ c ∈ natChars n, c.isDigit = true := by
  obtain ⟨ds, he, _, hdig, _⟩ := natChars_spec n
  rw [he]
  exact hdig

theorem natChars_ne_nil (n : Nat) : natChars n ≠ [] := by
  obtain ⟨ds, he, hne, _, _⟩ := natChars_spec n
  rw [he]
  exact hne

theorem parseDigits_stop (s : List Char) (acc : Nat)
    (h : headNotDigit s = true) : parseDigits s acc = (acc, s) := by
  cases s with
  | nil => rfl
  | cons c rest =>
      simp only [headNotDigit, Bool.not_eq_true'] at h
      simp [parseDigits, h]

theorem parseDigits_run (ds : List Char) (rest : List Char) (acc : Nat)
    (hds : ∀ c ∈ ds, c.isDigit = true) :
    parseDigits (ds ++ rest) acc =
      parseDigits rest (ds.foldl (fun a c => a * 10 + (c.toNat - 48)) acc) := by
  induction ds generalizing acc with
  | nil => rfl
  | cons c ds ih =>
      have hc : c.isDigit = true := hds c (by simp)
      simp only [List.cons_append, parseDigits, hc, if_pos, List.foldl_cons]
      exact ih _ (fun d hd => hds d (by simp [hd]))

theorem parseDigits_natChars (n : Nat) (rest : List Char)
    (h : headNotDigit rest = true) :
    parseDigits (natChars n ++ rest) 0 = (n, rest) := by
  obtain ⟨ds, he, _, hdig, hfold⟩ := natChars_spec n
  rw [he, parseDigits_run _ _ _ hdig, hfold, parseDigits_stop _ _ h]
  simp

theorem isDigit_notSpecial (c : Char) (h : c.isDigit = true) :
    c ≠ 'n' ∧ c ≠ 't' ∧ c ≠ 'f' ∧ c ≠ '"' ∧ c ≠ '[' ∧ c ≠ '\x7b' ∧
      c ≠ '-' ∧ c ≠ ']' ∧ c ≠ '\x7d' ∧ c ≠ ',' := by
  refine ⟨?_, ?_, ?_, ?_, ?_, ?_, ?_, ?_, ?_, ?_⟩ <;>
    (intro he; subst he; exact absurd h (by decide))

theorem intChars_head (n : Int) :
    ∃ c cs, intChars n = c :: cs ∧ (c = '-' ∨ c.isDigit = true) := by
  rw [intChars]
  split
  · exact ⟨'-', natChars (-n).toNat, rfl, Or.inl rfl⟩
  · rcases hn : natChars n.toNat with _ | ⟨c, cs⟩
    · exact absurd hn (natChars_ne_nil _)
    · refine ⟨c, cs, rfl, Or.inr ?_⟩
      exact natChars_digits n.toNat c (by rw [hn]; simp)

theorem parseNum_minus (d : Char) (t : List Char) (hd : d.isDigit = true) :
    parseNum ('-' :: d :: t) =
      some (-((parseDigits (d :: t) 0).1 : Int), (parseDigits (d :: t) 0).2) := by
  show (if d.isDigit = true then
          some (-((parseDigits (d :: t) 0).1 : Int), (parseDigits (d :: t) 0).2)
        else none) =
      some (-((parseDigits (d :: t) 0).1 : Int), (parseDigits (d :: t) 0).2)
  rw [if_pos hd]

theorem parseNum_digit (d : Char) (t : List Char) (hd : d.isDigit = true)
    (hnd : ¬(d = '-')) :
    parseNum (d :: t) =
      some (((parseDigits (d :: t) 0).1 : Int), (parseDigits (d :: t) 0).2) := by
  simp only [parseNum]
  rw [if_neg hnd, if_pos hd]

theorem parseNum_intChars (n : Int) (rest : List Char)
    (h : headNotDigit rest = true) :
    parseNum (intChars n ++ rest) = some (n, rest) := by
  rw [intChars]
  split
  · next hneg =>
      rcases hn : natChars (-n).toNat with _ | ⟨d, ds⟩
      · exact absurd hn (natChars_ne_nil _)
      · have hd : d.isDigit = true := natChars_digits _ d (by rw [hn]; simp)
        have e2 : d :: (ds ++ rest) = natChars (-n).toNat ++ rest := by
          rw [hn]; rfl
        rw [List.cons_append, List.cons_append, parseNum_minus d _ hd, e2,
          parseDigits_natChars _ _ h]
        simp only [Option.some.injEq, Prod.mk.injEq]
        exact ⟨by omega, by trivial⟩
  · next hpos =>
      rcases hn : natChars n.toNat with _ | ⟨d, ds⟩
      · exact absurd hn (natChars_ne_nil _)
      · have hd : d.isDigit = true := natChars_digits _ d (by rw [hn]; simp)
        have hnotdash : ¬(d = '-') := (isDigit_notSpecial d hd).2.2.2.2.2.2.1
        have e2 : d :: (ds ++ rest) = natChars n.toNat ++ rest := by
          rw [hn]; rfl
        rw [List.cons_append, parseNum_digit d _ hd hnotdash, e2,
          parseDigits_natChars _ _ h]
        simp only [Option.some.injEq, Prod.mk.injEq]
        exact ⟨by omega, by trivial⟩

/-! ### Roundtrip of the durable encoding: strings -/

theorem parseStr_other (c : Char) (t : List Char) (h1 : ¬(c = '"'))
    (h2 : ¬(c = '\\')) :
    parseStr (c :: t) = Option.map (fun p => (c :: p.1, p.2)) (parseStr t) := by
  rw [parseStr.eq_def]
  show (if c = '"' then some ([], t)
        else if c = '\\' then
          (match t with
            | [] => none
            | e :: rest2 =>
              match unescChar e with
              | some u => Option.map (fun p => (u :: p.1, p.2)) (parseStr rest2)
              | none => none)
        else Option.map (fun p => (c :: p.1, p.2)) (parseStr t)) =
      Option.map (fun p => (c :: p.1, p.2)) (parseStr t)
  rw [if_neg h1, if_neg h2]

theorem parseStr_quote (t : List Char) : parseStr ('"' :: t) = some ([], t) := by
  rw [parseStr.eq_def]; simp

theorem parseStr_esc (u e : Char) (t : List Char) (h : unescChar e = some u) :
    parseStr ('\\' :: e :: t) = Option.map (fun p => (u :: p.1, p.2)) (parseStr t) := by
  rw [parseStr.eq_def]; simp [h]

theorem parseStr_escChars (cs rest : List Char) :
    parseStr (escChars cs ++ '"' :: rest) = some (cs, rest) := by
  induction cs with
  | nil => rw [escChars, List.nil_append, parseStr_quote]
  | cons c cs ih =>
      rw [escChars]
      by_cases h1 : c = '"'
      · subst h1; simp [escChar, parseStr, unescChar, ih]
      · by_cases h2 : c = '\\'
        · subst h2; simp [escChar, parseStr, unescChar, ih]
        · by_cases h3 : c = '\n'
          · subst h3; simp [escChar, parseStr, unescChar, ih]
          · by_cases h4 : c = '\t'
            · subst h4; simp [escChar, parseStr, unescChar, ih]
            · by_cases h5 : c = '\r'
              · subst h5; simp [escChar, parseStr, unescChar, ih]
              · rw [escChar, if_neg h1, if_neg h2, if_neg h3, if_neg h4,
                  if_neg h5, List.cons_append, List.nil_append,
                  List.cons_append, parseStr_other c _ h1 h2, ih]
                rfl

/-! ### Roundtrip of the durable encoding: values -/

theorem encodeVal_head (v : PyVal) (cs : List Char) (h : encodeVal v = some cs) :
    ∃ c cs2, cs = c :: cs2 ∧
      (c = 'n' ∨ c = 't' ∨ c = 'f' ∨ c = '"' ∨ c = '[' ∨ c = '\x7b' ∨
        c = '-' ∨ c.isDigit = true) := by
  cases v with
  | pyNone =>
      rw [encodeVal] at h
      exact ⟨'n', _, (Option.some.inj h).symm, by tauto⟩
  | pyBool b =>
      cases b <;> rw [encodeVal] at h
      · exact ⟨'f', _, (Option.some.inj h).symm, by tauto⟩
      · exact ⟨'t', _, (Option.some.inj h).symm, by tauto⟩
  | pyInt n =>
      rw [encodeVal] at h
      obtain ⟨c, cs2, he, hc⟩ := intChars_head n
      refine ⟨c, cs2, ?_, by tauto⟩
      rw [← he]
      exact (Option.some.inj h).symm
  | pyStr s =>
      rw [encodeVal] at h
      exact ⟨'"', _, (Option.some.inj h).symm, by tauto⟩
  | pyList xs =>
      cases xs with
      | nil =>
          rw [encodeVal] at h
          exact ⟨'[', _, (Option.some.inj h).symm, by tauto⟩
      | cons x xs =>
          rw [encodeVal] at h
          split at h
          · exact ⟨'[', _, (Option.some.inj h).symm, by tauto⟩
          · cases h
  | pyDict kvs =>
      cases kvs with
      | nil =>
          rw [encodeVal] at h
          exact ⟨'\x7b', _, (Option.some.inj h).symm, by tauto⟩
      | cons kv kvs =>
          obtain ⟨k, v⟩ := kv
          rw [encodeVal] at h
          split at h
          · exact ⟨'\x7b', _, (Option.some.inj h).symm, by tauto⟩
          · cases h
  | pyObj => cases h

theorem encodeVal_head_notClose (v : PyVal) (cs : List Char)
    (h : encodeVal v = some cs) :
    ∃ c cs2, cs = c :: cs2 ∧ ¬(c = ']') ∧ ¬(c = '\x7d') := by
  obtain ⟨c, cs2, he, hc⟩ := encodeVal_head v cs h
  refine ⟨c, cs2, he, ?_, ?_⟩ <;>
    rcases hc with h1 | h1 | h1 | h1 | h1 | h1 | h1 | h1 <;>
      first
        | (subst h1; decide)
        | (have hdi := isDigit_notSpecial c h1; intro he2; subst he2; simp_all)

theorem needVal_pos (v : PyVal) : 1 ≤ needVal v := by
  cases v <;> simp [needVal]

theorem needElems_pos (xs : List PyVal) : 1 ≤ needElems xs := by
  cases xs <;> simp [needElems]

theorem needMems_pos (kvs : List (String × PyVal)) : 1 ≤ needMems kvs := by
  cases kvs with
  | nil => simp [needMems]
  | cons kv kvs => obtain ⟨k, v⟩ := kv; simp [needMems]

mutual

theorem needVal_le : ∀ (v : PyVal) (cs : List Char), encodeVal v = some cs →
    needVal v ≤ cs.length + 1
  | .pyNone, cs => by
      intro h
      simp only [encodeVal, Option.some.injEq] at h
      subst h
      simp [needVal]
  | .pyBool b, cs => by
      intro h
      cases b <;> simp only [encodeVal, Option.some.injEq] at h <;>
        subst h <;> simp [needVal]
  | .pyInt n, cs => by
      intro h
      simp only [encodeVal, Option.some.injEq] at h
      subst h
      simp only [needVal]
      omega
  | .pyStr s, cs => by
      intro h
      simp only [encodeVal, Option.some.injEq] at h
      subst h
      simp [needVal]
  | .pyList [], cs => by
      intro h
      simp only [encodeVal, Option.some.injEq] at h
      subst h
      simp [needVal, needElems]
  | .pyList (x :: xs), cs => by
      intro h
      simp only [encodeVal] at h
      split at h
      · next cx cxs hx hxs =>
          simp only [Option.some.injEq] at h
          subst h
          obtain ⟨c0, cs0, he0, _⟩ := encodeVal_head x cx hx
          have b1 := needVal_le x cx hx
          have b2 := needElems_le xs cxs hxs
          simp only [needVal, needElems, List.length_cons, List.length_append]
          have hcx : 1 ≤ cx.length := by rw [he0]; simp
          omega
      · cases h
  | .pyDict [], cs => by
      intro h
      simp only [encodeVal, Option.some.injEq] at h
      subst h
      simp [needVal, needMems]
  | .pyDict ((k, v) :: kvs), cs => by
      intro h
      simp only [encodeVal] at h
      split at h
      · next cv cms hv hms =>
          simp only [Option.some.injEq] at h
          subst h
          have b1 := needVal_le v cv hv
          have b2 := needMems_le kvs cms hms
          simp only [needVal, needMems, List.length_cons, List.length_append]
          omega
      · cases h
  | .pyObj, cs => by intro h; cases h

theorem needElems_le : ∀ (xs : List PyVal) (cs : List Char),
    encodeElems xs = some cs → needElems xs ≤ cs.length + 2
  | [], cs => by
      intro h
      simp only [encodeElems, Option.some.injEq] at h
      subst h
      simp [needElems]
  | x :: xs, cs => by
      intro h
      simp only [encodeElems] at h
      split at h
      · next cx cxs hx hxs =>
          simp only [Option.some.injEq] at h
          subst h
          have b1 := needVal_le x cx hx
          have b2 := needElems_le xs cxs hxs
          simp only [needElems, List.length_cons, List.length_append]
          omega
      · cases h

theorem needMems_le : ∀ (kvs : List (String × PyVal)) (cs : List Char),
    encodeMems kvs = some cs → needMems kvs ≤ cs.length + 2
  | [], cs => by
      intro h
      simp only [encodeMems, Option.some.injEq] at h
      subst h
      simp [needMems]
  | (k, v) :: kvs, cs => by
      intro h
      simp only [encodeMems] at h
      split at h
      · next cv cms hv hms =>
          simp only [Option.some.injEq] at h
          subst h
          have b1 := needVal_le v cv hv
          have b2 := needMems_le kvs cms hms
          simp only [needMems, List.length_cons, List.length_append]
          omega
      · cases h

end

theorem parseVal_null (f : Nat) (t : List Char) :
    parseVal (f + 1) ('n' :: t) =
      (expectChars ['u', 'l', 'l'] t).map (fun r => (.pyNone, r)) := by
  rw [parseVal.eq_def]; simp

theorem parseVal_true (f : Nat) (t : List Char) :
    parseVal (f + 1) ('t' :: t) =
      (expectChars ['r', 'u', 'e'] t).map (fun r => (.pyBool true, r)) := by
  rw [parseVal.eq_def]; simp

theorem parseVal_false (f : Nat) (t : List Char) :
    parseVal (f + 1) ('f' :: t) =
      (expectChars ['a', 'l', 's', 'e'] t).map (fun r => (.pyBool false, r)) := by
  rw [parseVal.eq_def]; simp

theorem parseVal_str (f : Nat) (t : List Char) :
    parseVal (f + 1) ('"' :: t) =
      (parseStr t).map (fun p => (.pyStr (String.mk p.1), p.2)) := by
  rw [parseVal.eq_def]; simp

theorem parseVal_listNil (f : Nat) (t : List Char) :
    parseVal (f + 1) ('[' :: ']' :: t) = some (.pyList [], t) := by
  rw [parseVal.eq_def]; simp

theorem parseVal_dictNil (f : Nat) (t : List Char) :
    parseVal (f + 1) ('\x7b' :: '\x7d' :: t) = some (.pyDict [], t) := by
  rw [parseVal.eq_def]; simp

theorem parseVal_list (f : Nat) (d : Char) (t : List Char) (vs : List PyVal)
    (r : List Char) (hne : ¬(d = ']'))
    (h : parseElems f (d :: t) = some (vs, r)) :
    parseVal (f + 1) ('[' :: d :: t) = some (.pyList vs, r) := by
  rw [parseVal.eq_def]; simp [hne, h]

theorem parseVal_dict (f : Nat) (d : Char) (t : List Char)
    (ms : List (String × PyVal)) (r : List Char) (hne : ¬(d = '\x7d'))
    (h : parseMems f (d :: t) = some (ms, r)) :
    parseVal (f + 1) ('\x7b' :: d :: t) = some (.pyDict ms, r) := by
  rw [parseVal.eq_def]; simp [hne, h]

theorem parseVal_num (f : Nat) (c : Char) (t : List Char) (h1 : ¬(c = 'n'))
    (h2 : ¬(c = 't')) (h3 : ¬(c = 'f')) (h4 : ¬(c = '"')) (h5 : ¬(c = '['))
    (h6 : ¬(c = '\x7b')) :
    parseVal (f + 1) (c :: t) = (parseNum (c :: t)).map (fun p => (.pyInt p.1, p.2)) := by
  rw [parseVal.eq_def]
  simp only [h1, h2, h3, h4, h5, h6, if_false, ite_false]

theorem parseElems_done (f : Nat) (s : List Char) (v : PyVal) (r2 : List Char)
    (h : parseVal f s = some (v, ']' :: r2)) :
    parseElems (f + 1) s = some ([v], r2) := by
  rw [parseElems.eq_def]; simp [h]

theorem parseElems_more (f : Nat) (s : List Char) (v : PyVal) (r2 : List Char)
    (vs : List PyVal) (r3 : List Char)
    (h1 : parseVal f s = some (v, ',' :: ' ' :: r2))
    (h2 : parseElems f r2 = some (vs, r3)) :
    parseElems (f + 1) s = some (v :: vs, r3) := by
  rw [parseElems.eq_def]; simp [h1, h2]

theorem parseMems_done (f : Nat) (r0 : List Char) (kcs : List Char) (v : PyVal)
    (r2 r4 : List Char)
    (hstr : parseStr r0 = some (kcs, ':' :: ' ' :: r2))
    (hv : parseVal f r2 = some (v, '\x7d' :: r4)) :
    parseMems (f + 1) ('"' :: r0) = some ([(String.mk kcs, v)], r4) := by
  rw [parseMems.eq_def]; simp [hstr, hv]

theorem parseMems_more (f : Nat) (r0 : List Char) (kcs : List Char) (v : PyVal)
    (r2 r4 : List Char) (ms : List (String × PyVal)) (r5 : List Char)
    (hstr : parseStr r0 = some (kcs, ':' :: ' ' :: r2))
    (hv : parseVal f r2 = some (v, ',' :: ' ' :: r4))
    (hm : parseMems f r4 = some (ms, r5)) :
    parseMems (f + 1) ('"' :: r0) = some ((String.mk kcs, v) :: ms, r5) := by
  rw [parseMems.eq_def]; simp [hstr, hv, hm]

theorem encodeElems_headNotDigit (xs : List PyVal) (cxs : List Char)
    (h : encodeElems xs = some cxs) (c : Char) (rest : List Char)
    (hc : c.isDigit = false) : headNotDigit (cxs ++ c :: rest) = true := by
  cases xs with
  | nil =>
      simp only [encodeElems, Option.some.injEq] at h
      subst h
      simp [headNotDigit, hc]
  | cons y ys =>
      simp only [encodeElems] at h
      split at h
      · simp only [Option.some.injEq] at h
        subst h
        simp [headNotDigit]
      · cases h

theorem encodeMems_headNotDigit (kvs : List (String × PyVal)) (cms : List Char)
    (h : encodeMems kvs = some cms) (c : Char) (rest : List Char)
    (hc : c.isDigit = false) : headNotDigit (cms ++ c :: rest) = true := by
  cases kvs with
  | nil =>
      simp only [encodeMems, Option.some.injEq] at h
      subst h
      simp [headNotDigit, hc]
  | cons kv kvs2 =>
      obtain ⟨k2, v2⟩ := kv
      simp only [encodeMems] at h
      split at h
      · simp only [Option.some.injEq] at h
        subst h
        simp [headNotDigit]
      · cases h

mutual

theorem parseVal_round : ∀ (fuel : Nat) (v : PyVal) (cs rest : List Char),
    encodeVal v = some cs → needVal v ≤ fuel → headNotDigit rest = true →
    parseVal fuel (cs ++ rest) = some (v, rest)
  | 0, v, cs, rest => by
      intro _ hneed _
      exact absurd hneed (by have := needVal_pos v; omega)
  | fuel + 1, v, cs, rest => by
      intro henc hneed hrest
      cases v with
      | pyNone =>
          simp only [encodeVal, Option.some.injEq] at henc
          subst henc
          simp only [List.cons_append, List.nil_append]
          rw [parseVal_null]
          rfl
      | pyBool b =>
          cases b with
          | false =>
              simp only [encodeVal, Option.some.injEq] at henc
              subst henc
              simp only [List.cons_append, List.nil_append]
              rw [parseVal_false]
              rfl
          | true =>
              simp only [encodeVal, Option.some.injEq] at henc
              subst henc
              simp only [List.cons_append, List.nil_append]
              rw [parseVal_true]
              rfl
      | pyInt n =>
          simp only [encodeVal, Option.some.injEq] at henc
          subst henc
          obtain ⟨c, cs2, he, hc⟩ := intChars_head n
          have hnum := parseNum_intChars n rest hrest
          rw [he, List.cons_append] at hnum
          rw [he, List.cons_append]
          have hne : ¬(c = 'n') ∧ ¬(c = 't') ∧ ¬(c = 'f') ∧ ¬(c = '"') ∧
              ¬(c = '[') ∧ ¬(c = '\x7b') := by
            rcases hc with h1 | h1
            · subst h1
              exact ⟨by decide, by decide, by decide, by decide, by decide, by decide⟩
            · have h2 := isDigit_notSpecial c h1
              tauto
          rw [parseVal_num fuel c _ hne.1 hne.2.1 hne.2.2.1 hne.2.2.2.1
            hne.2.2.2.2.1 hne.2.2.2.2.2, hnum]
          rfl
      | pyStr s =>
          simp only [encodeVal, Option.some.injEq] at henc
          subst henc
          simp only [List.cons_append, List.append_assoc, List.singleton_append]
          rw [parseVal_str, parseStr_escChars]
          rfl
      | pyList xs =>
          cases xs with
          | nil =>
              simp only [encodeVal, Option.some.injEq] at henc
              subst henc
              simp only [List.cons_append, List.nil_append]
              exact parseVal_listNil fuel rest
          | cons x xs2 =>
              simp only [encodeVal] at henc
              split at henc
              · next cx cxs hx hxs =>
                  simp only [Option.some.injEq] at henc
                  subst henc
                  simp only [List.cons_append, List.append_assoc,
                    List.singleton_append]
                  simp only [needVal] at hneed
                  have hE := parseElems_round fuel x xs2 cx cxs rest hx hxs
                    (by omega)
                  obtain ⟨c0, cs0, he0, hno1, _⟩ :=
                    encodeVal_head_notClose x cx hx
                  rw [he0, List.cons_append] at hE
                  rw [he0, List.cons_append]
                  exact parseVal_list fuel c0 _ _ _ hno1 hE
              · cases henc
      | pyDict kvs =>
          cases kvs with
          | nil =>
              simp only [encodeVal, Option.some.injEq] at henc
              subst henc
              simp only [List.cons_append, List.nil_append]
              exact parseVal_dictNil fuel rest
          | cons kv kvs2 =>
              obtain ⟨k, v⟩ := kv
              simp only [encodeVal] at henc
              split at henc
              · next cv cms hv hms =>
                  simp only [Option.some.injEq] at henc
                  subst henc
                  simp only [List.cons_append, List.append_assoc,
                    List.singleton_append]
                  simp only [needVal] at hneed
                  have hM := parseMems_round fuel k v kvs2 cv cms rest hv hms
                    (by omega)
                  exact parseVal_dict fuel '"' _ _ _ (by decide) hM
              · cases henc
      | pyObj => cases henc

theorem parseElems_round : ∀ (fuel : Nat) (x : PyVal) (xs : List PyVal)
    (cx cxs rest : List Char), encodeVal x = some cx →
    encodeElems xs = some cxs → needElems (x :: xs) ≤ fuel →
    parseElems fuel (cx ++ (cxs ++ ']' :: rest)) = some (x :: xs, rest)
  | 0, x, xs, cx, cxs, rest => by
      intro _ _ hneed
      exact absurd hneed (by have := needElems_pos (x :: xs); omega)
  | fuel + 1, x, xs, cx, cxs, rest => by
      intro hx hxs hneed
      simp only [needElems] at hneed
      have hnv : needVal x ≤ fuel := by omega
      cases xs with
      | nil =>
          simp only [encodeElems, Option.some.injEq] at hxs
          subst hxs
          simp only [List.nil_append]
          have hpv := parseVal_round fuel x cx (']' :: rest) hx hnv
            (by simp [headNotDigit])
          exact parseElems_done fuel _ x rest hpv
      | cons y ys =>
          simp only [encodeElems] at hxs
          split at hxs
          · next cy cys hy hys =>
              simp only [Option.some.injEq] at hxs
              subst hxs
              simp only [List.cons_append, List.append_assoc]
              have hnd : headNotDigit
                  (',' :: ' ' :: (cy ++ (cys ++ ']' :: rest))) = true := by
                simp [headNotDigit]
              have hpv := parseVal_round fuel x cx _ hx hnv hnd
              have hE2 := parseElems_round fuel y ys cy cys rest hy hys
                (by simp only [needElems] at hneed ⊢; omega)
              exact parseElems_more fuel _ x (cy ++ (cys ++ ']' :: rest))
                (y :: ys) rest hpv hE2
          · cases hxs

theorem parseMems_round : ∀ (fuel : Nat) (k : String) (v : PyVal)
    (kvs : List (String × PyVal)) (cv cms rest : List Char),
    encodeVal v = some cv → encodeMems kvs = some cms →
    needMems ((k, v) :: kvs) ≤ fuel →
    parseMems fuel ('"' :: (escChars k.data ++
        '"' :: ':' :: ' ' :: (cv ++ (cms ++ '\x7d' :: rest))))
      = some ((k, v) :: kvs, rest)
  | 0, k, v, kvs, cv, cms, rest => by
      intro _ _ hneed
      exact absurd hneed (by have := needMems_pos ((k, v) :: kvs); omega)
  | fuel + 1, k, v, kvs, cv, cms, rest => by
      intro hv hms hneed
      simp only [needMems] at hneed
      have hnv : needVal v ≤ fuel := by omega
      cases kvs with
      | nil =>
          simp only [encodeMems, Option.some.injEq] at hms
          subst hms
          simp only [List.nil_append]
          have hstr := parseStr_escChars k.data
            (':' :: ' ' :: (cv ++ '\x7d' :: rest))
          have hpv := parseVal_round fuel v cv ('\x7d' :: rest) hv hnv
            (by simp [headNotDigit])
          exact parseMems_done fuel _ k.data v _ rest hstr hpv
      | cons kv kvs2 =>
          obtain ⟨k2, v2⟩ := kv
          simp only [encodeMems] at hms
          split at hms
          · next cv2 cms2 hv2 hms2 =>
              simp only [Option.some.injEq] at hms
              subst hms
              simp only [List.cons_append, List.append_assoc]
              have hstr := parseStr_escChars k.data
                (':' :: ' ' :: (cv ++ (',' :: ' ' :: '"' ::
                  (escChars k2.data ++
                    '"' :: ':' :: ' ' :: (cv2 ++ (cms2 ++ '\x7d' :: rest))))))
              have hnd : headNotDigit
                  (',' :: ' ' :: '"' :: (escChars k2.data ++
                    '"' :: ':' :: ' ' :: (cv2 ++ (cms2 ++ '\x7d' :: rest))))
                    = true := by
                simp [headNotDigit]
              have hpv := parseVal_round fuel v cv _ hv hnv hnd
              have hM2 := parseMems_round fuel k2 v2 kvs2 cv2 cms2 rest hv2 hms2
                (by simp only [needMems] at hneed ⊢; omega)
              exact parseMems_more fuel _ k.data v _ _ _ rest hstr hpv hM2
          · cases hms

end

theorem loads_dumps (x : PyVal) (s : String) (h : dumps x = some s) :
    loads s = some x := by
  rw [dumps] at h
  cases henc : encodeVal x with
  | none => rw [henc] at h; cases h
  | some cs =>
      rw [henc] at h
      simp only [Option.map, Option.some.injEq] at h
      subst h
      have hb := needVal_le x cs henc
      have hpv := parseVal_round (cs.length + 1) x cs [] henc hb rfl
      rw [List.append_nil] at hpv
      rw [loads]
      have hdata : (String.mk cs).data = cs := rfl
      rw [hdata, hpv]

/-! ### Injectivity of the uuid4 model on its 122-bit seed space -/

theorem hexChar_inj (a b : Nat) (ha : a < 16) (hb : b < 16)
    (h : hexChar a = hexChar b) : a = b := by
  interval_cases a <;> interval_cases b <;>
    first
      | rfl
      | exact absurd h (by decide)

theorem toHexBE_length (w v : Nat) : (toHexBE w v).length = w := by
  induction w generalizing v with
  | zero => rfl
  | succ w ih => simp [toHexBE, ih]

theorem toHexBE_inj (w : Nat) : ∀ v1 v2 : Nat, v1 < 16 ^ w → v2 < 16 ^ w →
    toHexBE w v1 = toHexBE w v2 → v1 = v2 := by
  induction w with
  | zero =>
      intro v1 v2 h1 h2 _
      simp only [pow_zero, Nat.lt_one_iff] at h1 h2
      omega
  | succ w ih =>
      intro v1 v2 h1 h2 h
      rw [toHexBE, toHexBE] at h
      obtain ⟨hpre, hsuf⟩ := List.append_inj h
        (by rw [toHexBE_length, toHexBE_length])
      simp only [List.cons.injEq] at hsuf
      have hm : v1 % 16 = v2 % 16 :=
        hexChar_inj _ _ (Nat.mod_lt _ (by omega)) (Nat.mod_lt _ (by omega))
          hsuf.1
      have hd : v1 / 16 = v2 / 16 := by
        refine ih _ _ ?_ ?_ hpre
        · rw [Nat.div_lt_iff_lt_mul (by omega)]
          rw [pow_succ] at h1
          exact h1
        · rw [Nat.div_lt_iff_lt_mul (by omega)]
          rw [pow_succ] at h2
          exact h2
      omega

theorem div_mod_determines (x y k : Nat) (h1 : x / k = y / k)
    (h2 : x % k = y % k) : x = y := by
  have hx := Nat.div_add_mod x k
  have hy := Nat.div_add_mod y k
  rw [h1, h2] at hx
  exact (hy.symm.trans hx).symm

theorem div16_lt (x n k : Nat) (h : x < 16 ^ (n + k)) : x / 16 ^ k < 16 ^ n := by
  rw [Nat.div_lt_iff_lt_mul (by positivity)]
  rw [pow_add] at h
  exact h

theorem uuid4_injective : Function.Injective uuid4 := by
  intro s1 s2 h
  simp only [uuid4] at h
  injection h with h
  have hva : s1.val / 4 < 16 ^ 30 := by
    have h1 := s1.isLt
    have e1 : (16 : Nat) ^ 30 = 2 ^ 120 := by norm_num
    rw [e1, Nat.div_lt_iff_lt_mul (by omega)]
    have e2 : (2 : Nat) ^ 120 * 4 = 2 ^ 122 := by norm_num
    rw [e2]
    exact h1
  have hvb : s2.val / 4 < 16 ^ 30 := by
    have h1 := s2.isLt
    have e1 : (16 : Nat) ^ 30 = 2 ^ 120 := by norm_num
    rw [e1, Nat.div_lt_iff_lt_mul (by omega)]
    have e2 : (2 : Nat) ^ 120 * 4 = 2 ^ 122 := by norm_num
    rw [e2]
    exact h1
  have hv1a : s1.val / 4 / 16 ^ 12 < 16 ^ 18 := div16_lt _ 18 12 hva
  have hv1b : s2.val / 4 / 16 ^ 12 < 16 ^ 18 := div16_lt _ 18 12 hvb
  have hv2a : s1.val / 4 / 16 ^ 12 / 16 ^ 3 < 16 ^ 15 := div16_lt _ 15 3 hv1a
  have hv2b : s2.val / 4 / 16 ^ 12 / 16 ^ 3 < 16 ^ 15 := div16_lt _ 15 3 hv1b
  have hv3a : s1.val / 4 / 16 ^ 12 / 16 ^ 3 / 16 ^ 3 < 16 ^ 12 :=
    div16_lt _ 12 3 hv2a
  have hv3b : s2.val / 4 / 16 ^ 12 / 16 ^ 3 / 16 ^ 3 < 16 ^ 12 :=
    div16_lt _ 12 3 hv2b
  have hg1a : s1.val / 4 / 16 ^ 12 / 16 ^ 3 / 16 ^ 3 / 16 ^ 4 < 16 ^ 8 :=
    div16_lt _ 8 4 hv3a
  have hg1b : s2.val / 4 / 16 ^ 12 / 16 ^ 3 / 16 ^ 3 / 16 ^ 4 < 16 ^ 8 :=
    div16_lt _ 8 4 hv3b
  obtain ⟨e1, h⟩ := List.append_inj h
    (by rw [toHexBE_length, toHexBE_length])
  simp only [List.cons.injEq] at h
  obtain ⟨-, h⟩ := h
  obtain ⟨e2, h⟩ := List.append_inj h
    (by rw [toHexBE_length, toHexBE_length])
  simp only [List.cons.injEq] at h
  obtain ⟨-, -, h⟩ := h
  obtain ⟨e3, h⟩ := List.append_inj h
    (by rw [toHexBE_length, toHexBE_length])
  simp only [List.cons.injEq] at h
  obtain ⟨-, hvar, h⟩ := h
  obtain ⟨e4, h⟩ := List.append_inj h
    (by rw [toHexBE_length, toHexBE_length])
  simp only [List.cons.injEq] at h
  obtain ⟨-, e5⟩ := h
  have hg1 := toHexBE_inj 8 _ _ hg1a hg1b e1
  have hg2 := toHexBE_inj 4 _ _ (Nat.mod_lt _ (by positivity))
    (Nat.mod_lt _ (by positivity)) e2
  have hg3 := toHexBE_inj 3 _ _ (Nat.mod_lt _ (by positivity))
    (Nat.mod_lt _ (by positivity)) e3
  have hg4 := toHexBE_inj 3 _ _ (Nat.mod_lt _ (by positivity))
    (Nat.mod_lt _ (by positivity)) e4
  have hg5 := toHexBE_inj 12 _ _ (Nat.mod_lt _ (by positivity))
    (Nat.mod_lt _ (by positivity)) e5
  have hr2 : s1.val % 4 = s2.val % 4 := by
    have := hexChar_inj (8 + s1.val % 4) (8 + s2.val % 4) (by omega) (by omega)
      hvar
    omega
  have hv3 := div_mod_determines _ _ (16 ^ 4) hg1 hg2
  have hv2 := div_mod_determines _ _ (16 ^ 3) hv3 hg3
  have hv1 := div_mod_determines _ _ (16 ^ 3) hv2 hg4
  have hv := div_mod_determines _ _ (16 ^ 12) hv1 hg5
  have hval := div_mod_determines _ _ 4 hv hr2
  exact Fin.ext hval

/-! ### `log` refines its state-independent outcome -/

theorem ebind_ok {α β : Type} (a : α) (f : α → Except PyErr β) :
    (Except.ok a >>= f : Except PyErr β) = f a := rfl

theorem log_eq_outcome (seed : Fin (2 ^ 122)) (now : String) (s : SysState)
    (req resp : PyVal) :
    log seed now s req resp =
      (match logOutcome seed now req resp with
        | .raise e => .error e
        | .reject m => .ok (s, m)
        | .accept entry m => .ok ({ s with queue := s.queue ++ [entry] }, m)) := by
  rw [log, logOutcome]
  split
  · next e heq =>
      by_cases hc : caughtByLog e = true
      · rw [if_pos hc, if_pos hc]
      · rw [if_neg hc, if_neg hc]
  · next rq rs heq =>
      cases hV : validate_interaction rq rs with
      | error e => rfl
      | ok v =>
          obtain ⟨b, msgs⟩ := v
          simp only [ebind_ok]
          cases b with
          | false => rfl
          | true =>
              cases hid : pyGet rs "id" with
              | error e => rfl
              | ok idOpt =>
                  simp only [ebind_ok]
                  cases hmd : pyGet rs "model" with
                  | error e => rfl
                  | ok mdlOpt =>
                      simp only [ebind_ok]
                      cases ht : truthy (mdlOpt.getD .pyNone) with
                      | false => rfl
                      | true =>
                          cases hdq : dumps rq with
                          | none => cases hds : dumps rs <;> rfl
                          | some rqj =>
                              cases hds : dumps rs with
                              | none => rfl
                              | some rsj =>
                                  cases husg : pyGet rs "usage" with
                                  | error e => rfl
                                  | ok usg => rfl

theorem ebind_err {α β : Type} (e : PyErr) (f : α → Except PyErr β) :
    ((Except.error e : Except PyErr α) >>= f) = Except.error e := rfl

theorem ensurePair_ok (req resp rq rs : PyVal)
    (h : (do
        let rq2 ← _ensure_dict req
        let rs2 ← _ensure_dict resp
        pure (rq2, rs2) : Except PyErr (PyVal × PyVal)) = .ok (rq, rs)) :
    _ensure_dict req = .ok rq ∧ _ensure_dict resp = .ok rs := by
  cases h1 : _ensure_dict req with
  | error e => rw [h1, ebind_err] at h; cases h
  | ok rq2 =>
      rw [h1, ebind_ok] at h
      cases h2 : _ensure_dict resp with
      | error e => rw [h2, ebind_err] at h; cases h
      | ok rs2 =>
          rw [h2, ebind_ok] at h
          have h3 : (Except.ok (rq2, rs2) : Except PyErr (PyVal × PyVal))
              = .ok (rq, rs) := h
          simp only [Except.ok.injEq, Prod.mk.injEq] at h3
          obtain ⟨e1, e2⟩ := h3
          subst e1
          subst e2
          exact ⟨rfl, rfl⟩

theorem validate_true_msgs (rq rs : PyVal) (m : List String)
    (h : validate_interaction rq rs = .ok (true, m)) : m = [] := by
  rw [validate_interaction] at h
  cases h1 : firstMissing rq required_request_keys with
  | error e => rw [h1, ebind_err] at h; cases h
  | ok o1 =>
      rw [h1, ebind_ok] at h
      cases o1 with
      | some k => simp at h
      | none =>
          cases h2 : firstMissing rs required_response_keys with
          | error e => rw [h2, ebind_err] at h; cases h
          | ok o2 =>
              rw [h2, ebind_ok] at h
              cases o2 with
              | some k => simp at h
              | none =>
                  simp only [Except.ok.injEq, Prod.mk.injEq] at h
                  exact h.2.symm

theorem logOutcome_accept (seed : Fin (2 ^ 122)) (now : String)
    (req resp : PyVal) (entry : Record) (m : List String)
    (h : logOutcome seed now req resp = .accept entry m) :
    m = [] ∧
    ∃ rq rs idOpt mdlOpt usgOpt rqj rsj,
      _ensure_dict req = .ok rq ∧ _ensure_dict resp = .ok rs ∧
      validate_interaction rq rs = .ok (true, []) ∧
      pyGet rs "id" = .ok idOpt ∧ pyGet rs "model" = .ok mdlOpt ∧
      pyGet rs "usage" = .ok usgOpt ∧
      dumps rq = some rqj ∧ dumps rs = some rsj ∧
      truthy (mdlOpt.getD .pyNone) = true ∧
      entry = { interaction_id :=
                  if truthy (idOpt.getD .pyNone) then idOpt.getD .pyNone
                  else .pyStr (uuid4 seed),
                timestamp := now, model := mdlOpt.getD .pyNone,
                request_data := rqj, response_data := rsj,
                token_usage := usgOpt.getD (.pyDict []) } := by
  rw [logOutcome] at h
  split at h
  · next e heq =>
      split at h <;> cases h
  · next rq rs heq =>
      obtain ⟨hrq, hrs⟩ := ensurePair_ok req resp rq rs heq
      cases hV : validate_interaction rq rs with
      | error e => rw [hV] at h; cases h
      | ok v =>
          obtain ⟨b, msgs⟩ := v
          rw [hV] at h
          cases b with
          | false => simp at h
          | true =>
              simp only [Bool.not_true] at h
              cases hid : pyGet rs "id" with
              | error e => rw [hid] at h; simp at h
              | ok idOpt =>
                  rw [hid] at h
                  cases hmd : pyGet rs "model" with
                  | error e => rw [hmd] at h; simp at h
                  | ok mdlOpt =>
                      rw [hmd] at h
                      dsimp only at h
                      cases ht : truthy (mdlOpt.getD .pyNone) with
                      | false => rw [ht] at h; simp at h
                      | true =>
                          rw [ht] at h
                          cases hdq : dumps rq with
                          | none => rw [hdq] at h; simp at h
                          | some rqj =>
                              rw [hdq] at h
                              cases hds : dumps rs with
                              | none => rw [hds] at h; simp at h
                              | some rsj =>
                                  rw [hds] at h
                                  cases husg : pyGet rs "usage" with
                                  | error e => rw [husg] at h; simp at h
                                  | ok usgOpt =>
                                      rw [husg] at h
                                      simp only [Bool.not_true] at h
                                      rw [if_neg Bool.false_ne_true,
                                        if_neg Bool.false_ne_true] at h
                                      simp only [LogOutcome.accept.injEq] at h
                                      obtain ⟨hentry, hm⟩ := h
                                      have hmsgs := validate_true_msgs rq rs _ hV
                                      subst hmsgs
                                      subst hm
                                      refine ⟨rfl, rq, rs, idOpt, mdlOpt,
                                        usgOpt, rqj, rsj, hrq, hrs, hV, hid,
                                        hmd, husg, hdq, hds, ht, ?_⟩
                                      rw [← hentry]

/-! ### Validation characterisation and the claims -/

theorem firstMissing_dict (kvs : List (String × PyVal)) (keys : List String) :
    firstMissing (.pyDict kvs) keys =
      .ok (keys.find? (fun k => !(kvs.any (fun p => p.1 == k)))) := by
  induction keys with
  | nil => rfl
  | cons k ks ih =>
      rw [firstMissing,
        show pyContains k (.pyDict kvs) = .ok (kvs.any (fun p => p.1 == k))
          from rfl,
        ebind_ok]
      cases ha : kvs.any (fun p => p.1 == k) with
      | true =>
          have hp : ¬((fun k2 => !(kvs.any (fun p => p.1 == k2))) k = true) := by
            simp only [ha, Bool.not_true]
            exact Bool.false_ne_true
          rw [if_pos rfl,
            @List.find?_cons_of_neg _ (fun k2 => !(kvs.any (fun p => p.1 == k2)))
              k ks hp, ih]
      | false =>
          have hp : (fun k2 => !(kvs.any (fun p => p.1 == k2))) k = true := by
            simp only [ha, Bool.not_false]
          rw [if_neg Bool.false_ne_true,
            @List.find?_cons_of_pos _ (fun k2 => !(kvs.any (fun p => p.1 == k2)))
              k ks hp]

/-- C4 (confirmed).  For dict-typed request and response,
`validate_interaction` never throws; it returns `false` logging the name of
the first required key that is missing (request keys `model`, `messages`
checked first, then response keys `id`, `object`, `created`, `model`,
`choices`, `usage`), and it returns `true` with no diagnostic exactly when
every required key is present — key presence only, the bound values are
arbitrary. -/
theorem C4_validate_presence (rq rs : List (String × PyVal)) :
    (∀ k, required_request_keys.find?
        (fun k2 => !(rq.any (fun p => p.1 == k2))) = some k →
      validate_interaction (.pyDict rq) (.pyDict rs) =
        .ok (false, ["Missing key in request: " ++ k])) ∧
    (required_request_keys.find?
        (fun k2 => !(rq.any (fun p => p.1 == k2))) = none →
      ∀ k, required_response_keys.find?
          (fun k2 => !(rs.any (fun p => p.1 == k2))) = some k →
        validate_interaction (.pyDict rq) (.pyDict rs) =
          .ok (false, ["Missing key in response: " ++ k])) ∧
    (validate_interaction (.pyDict rq) (.pyDict rs) = .ok (true, []) ↔
      (required_request_keys.all (fun k => rq.any (fun p => p.1 == k)) = true ∧
        required_response_keys.all (fun k => rs.any (fun p => p.1 == k)) = true)) := by
  refine ⟨?_, ?_, ?_⟩
  · intro k hk
    rw [validate_interaction, firstMissing_dict, ebind_ok, hk]
  · intro h0 k hk
    rw [validate_interaction, firstMissing_dict, ebind_ok, h0,
      firstMissing_dict, ebind_ok, hk]
  · constructor
    · intro hval
      rw [validate_interaction, firstMissing_dict, ebind_ok] at hval
      cases hr : required_request_keys.find?
          (fun k2 => !(rq.any (fun p => p.1 == k2))) with
      | some k => rw [hr] at hval; simp at hval
      | none =>
          rw [hr, firstMissing_dict, ebind_ok] at hval
          cases hs : required_response_keys.find?
              (fun k2 => !(rs.any (fun p => p.1 == k2))) with
          | some k => rw [hs] at hval; simp at hval
          | none =>
              constructor
              · rw [List.all_eq_true]
                intro k hk
                have := List.find?_eq_none.mp hr k hk
                simpa using this
              · rw [List.all_eq_true]
                intro k hk
                have := List.find?_eq_none.mp hs k hk
                simpa using this
    · intro ⟨h1, h2⟩
      rw [validate_interaction, firstMissing_dict, ebind_ok]
      cases hr : required_request_keys.find?
          (fun k2 => !(rq.any (fun p => p.1 == k2))) with
      | some k =>
          have hmem := List.mem_of_find?_eq_some hr
          have hpk := List.find?_some hr
          have := List.all_eq_true.mp h1 k hmem
          simp only [Bool.not_eq_true'] at hpk
          rw [this] at hpk
          cases hpk
      | none =>
          rw [firstMissing_dict, ebind_ok]
          cases hs : required_response_keys.find?
              (fun k2 => !(rs.any (fun p => p.1 == k2))) with
          | some k =>
              have hmem := List.mem_of_find?_eq_some hs
              have hpk := List.find?_some hs
              have := List.all_eq_true.mp h2 k hmem
              simp only [Bool.not_eq_true'] at hpk
              rw [this] at hpk
              cases hpk
          | none => rfl

/-- Witness for C4: with request dict `{"model": "m"}` (missing
`messages`) and an empty response dict, the first missing key is
`messages` and `validate_interaction` reports exactly it. -/
theorem C4_validate_presence_witness :
    required_request_keys.find?
        (fun k2 => !([("model", PyVal.pyStr "m")].any (fun p => p.1 == k2)))
      = some "messages" ∧
    validate_interaction (.pyDict [("model", .pyStr "m")]) (.pyDict []) =
      .ok (false, ["Missing key in request: " ++ "messages"]) :=
  ⟨rfl, (C4_validate_presence [("model", .pyStr "m")] []).1 "messages" rfl⟩

/-- C3 (confirmed).  An entry reaches the queue only after validation
succeeded and a truthy model was extracted: whenever a `log` call changes
the queue, it appended exactly one record whose model is truthy, both
inputs normalised successfully, validation returned true, and the stored
rows were not touched by the call. -/
theorem C3_no_invalid_enqueued (seed : Fin (2 ^ 122)) (now : String)
    (s : SysState) (req resp : PyVal) (s2 : SysState) (d : List String)
    (h : log seed now s req resp = .ok (s2, d)) (hq : s2.queue ≠ s.queue) :
    s2.rows = s.rows ∧
    ∃ e, s2.queue = s.queue ++ [e] ∧ truthy e.model = true ∧
      ∃ rq rs, _ensure_dict req = .ok rq ∧ _ensure_dict resp = .ok rs ∧
        validate_interaction rq rs = .ok (true, []) := by
  rw [log_eq_outcome] at h
  cases ho : logOutcome seed now req resp <;> rw [ho] at h
  · cases h
  · simp only [Except.ok.injEq, Prod.mk.injEq] at h
    exact absurd (by rw [← h.1]) hq
  · next entry m =>
      simp only [Except.ok.injEq, Prod.mk.injEq] at h
      obtain ⟨hm, ⟨rq, rs, idOpt, mdlOpt, usgOpt, rqj, rsj, hrq, hrs, hV, hid,
        hmd, husg, hdq, hds, ht, hentry⟩⟩ := logOutcome_accept _ _ _ _ _ _ ho
      refine ⟨by rw [← h.1], entry, by rw [← h.1], ?_, rq, rs, hrq, hrs, hV⟩
      rw [hentry]
      exact ht

/-- Witness for C3 at the spec §8 example inputs. -/
theorem C3_no_invalid_enqueued_witness :
    ∃ s2 d, log seed0 "2024-01-01T00:00:00" st0 reqEx respEx = .ok (s2, d) ∧
      s2.queue ≠ st0.queue ∧
      (s2.rows = st0.rows ∧
        ∃ e, s2.queue = st0.queue ++ [e] ∧ truthy e.model = true ∧
          ∃ rq rs, _ensure_dict reqEx = .ok rq ∧ _ensure_dict respEx = .ok rs ∧
            validate_interaction rq rs = .ok (true, [])) :=
  ⟨_, _, rfl, by simp [st0],
    C3_no_invalid_enqueued seed0 "2024-01-01T00:00:00" st0 reqEx respEx _ _
      rfl (by simp [st0])⟩

/-- C5 (amended; corrected from the original claim).  For every enqueued
record, `interaction_id` equals the response's `id` value whenever that
value is present and truthy (in particular a non-empty string yields that
string, but a truthy non-string such as the number 123 is stored as-is,
not as a string); when `id` is absent or falsy it is `str(uuid.uuid4())`,
whose model is injective on its 2^122-element seed space (at least 122
bits of randomness). -/
theorem C5_interaction_id_rule (seed : Fin (2 ^ 122)) (now : String)
    (s : SysState) (req resp : PyVal) (s2 : SysState) (d : List String)
    (e : Record) (h : log seed now s req resp = .ok (s2, d))
    (hq : s2.queue = s.queue ++ [e]) :
    Function.Injective uuid4 ∧
    ∃ rs idOpt, _ensure_dict resp = .ok rs ∧ pyGet rs "id" = .ok idOpt ∧
      ((truthy (idOpt.getD .pyNone) = true ∧
          e.interaction_id = idOpt.getD .pyNone) ∨
        (truthy (idOpt.getD .pyNone) = false ∧
          e.interaction_id = .pyStr (uuid4 seed))) := by
  rw [log_eq_outcome] at h
  cases ho : logOutcome seed now req resp <;> rw [ho] at h
  · cases h
  · simp only [Except.ok.injEq, Prod.mk.injEq] at h
    rw [← h.1] at hq
    simp at hq
  · next entry m =>
      simp only [Except.ok.injEq, Prod.mk.injEq] at h
      obtain ⟨hm, ⟨rq, rs, idOpt, mdlOpt, usgOpt, rqj, rsj, hrq, hrs, hV, hid,
        hmd, husg, hdq, hds, ht, hentry⟩⟩ := logOutcome_accept _ _ _ _ _ _ ho
      have he : e = entry := by
        rw [← h.1] at hq
        simp only [SysState.mk.injEq] at hq
        have := List.append_cancel_left hq.symm
        simp only [List.cons.injEq] at this
        exact this.1
      subst he
      refine ⟨uuid4_injective, rs, idOpt, hrs, hid, ?_⟩
      cases hti : truthy (idOpt.getD .pyNone) with
      | true =>
          left
          refine ⟨rfl, ?_⟩
          rw [hentry]
          simp [hti]
      | false =>
          right
          refine ⟨rfl, ?_⟩
          rw [hentry]
          simp [hti]

/-- Witness for C5 at a response whose id is the empty string: the uuid
branch is taken. -/
theorem C5_interaction_id_rule_witness :
    ∃ s2 d e, log seed0 "2024-01-01T00:00:00" st0 reqEx respEmptyId
        = .ok (s2, d) ∧ s2.queue = st0.queue ++ [e] ∧
      (Function.Injective uuid4 ∧
        ∃ rs idOpt, _ensure_dict respEmptyId = .ok rs ∧
          pyGet rs "id" = .ok idOpt ∧
          ((truthy (idOpt.getD .pyNone) = true ∧
              e.interaction_id = idOpt.getD .pyNone) ∨
            (truthy (idOpt.getD .pyNone) = false ∧
              e.interaction_id = .pyStr (uuid4 seed0)))) :=
  ⟨_, _, _, rfl, rfl,
    C5_interaction_id_rule seed0 "2024-01-01T00:00:00" st0 reqEx respEmptyId
      _ _ _ rfl rfl⟩

/-- C5, the claim as frozen, is false on the code: with response id 123
(present, truthy, not a string) the enqueued record's interaction_id is
the integer 123 — not a string equal to the id and not a generated uuid
string. -/
theorem C5_counterexample :
    (log seed0 "2024-01-01T00:00:00" st0 reqEx respIdNum).map
        (fun p => p.1.queue.map
          (fun e => (e.interaction_id, isStrVal e.interaction_id)))
      = .ok [(.pyInt 123, false)] := rfl

/-- C6 (confirmed).  The durable encoding round-trips: decoding any
successfully serialised payload recovers it, and in particular every
enqueued record's request_data and response_data decode back to the exact
normalised request and response dicts that log serialised. -/
theorem C6_roundtrip :
    (∀ x s, dumps x = some s → loads s = some x) ∧
    ∀ (seed : Fin (2 ^ 122)) (now : String) (st : SysState) (req resp : PyVal)
      (s2 : SysState) (d : List String) (e : Record),
      log seed now st req resp = .ok (s2, d) → s2.queue = st.queue ++ [e] →
      ∃ rq rs, _ensure_dict req = .ok rq ∧ _ensure_dict resp = .ok rs ∧
        loads e.request_data = some rq ∧ loads e.response_data = some rs := by
  refine ⟨loads_dumps, ?_⟩
  intro seed now st req resp s2 d e h hq
  rw [log_eq_outcome] at h
  cases ho : logOutcome seed now req resp <;> rw [ho] at h
  · cases h
  · simp only [Except.ok.injEq, Prod.mk.injEq] at h
    rw [← h.1] at hq
    simp at hq
  · next entry m =>
      simp only [Except.ok.injEq, Prod.mk.injEq] at h
      obtain ⟨hm, ⟨rq, rs, idOpt, mdlOpt, usgOpt, rqj, rsj, hrq, hrs, hV, hid,
        hmd, husg, hdq, hds, ht, hentry⟩⟩ := logOutcome_accept _ _ _ _ _ _ ho
      have he : e = entry := by
        rw [← h.1] at hq
        simp only [SysState.mk.injEq] at hq
        have := List.append_cancel_left hq.symm
        simp only [List.cons.injEq] at this
        exact this.1
      subst he
      refine ⟨rq, rs, hrq, hrs, ?_, ?_⟩
      · rw [hentry]
        exact loads_dumps rq rqj hdq
      · rw [hentry]
        exact loads_dumps rs rsj hds

/-- Witness for C6: a concrete round-trip and the log-level consequence at
the spec §8 example. -/
theorem C6_roundtrip_witness :
    (dumps reqEx = some "\x7b\"model\": \"gpt-x\", \"messages\": []\x7d" ∧
      loads "\x7b\"model\": \"gpt-x\", \"messages\": []\x7d" = some reqEx) ∧
    ∃ s2 d e, log seed0 "2024-01-01T00:00:00" st0 reqEx respEx = .ok (s2, d) ∧
      s2.queue = st0.queue ++ [e] ∧
      ∃ rq rs, _ensure_dict reqEx = .ok rq ∧ _ensure_dict respEx = .ok rs ∧
        loads e.request_data = some rq ∧ loads e.response_data = some rs :=
  ⟨⟨rfl, C6_roundtrip.1 reqEx _ rfl⟩,
    _, _, _, rfl, rfl,
    C6_roundtrip.2 seed0 "2024-01-01T00:00:00" st0 reqEx respEx _ _ _ rfl rfl⟩

/-- C7 (confirmed).  If the worker's storage startup fails (connection or
table creation), the failure is fatal to the worker only: it writes
diagnostics and returns without draining - queue and rows are untouched,
no exception reaches any caller (the run is a total value, not an error),
a subsequent close does not drain, and later `log` calls still work,
never touching the rows. -/
theorem C7_init_failure (s : SysState) (h : ¬(s.init = .ok)) :
    ∃ msgs, msgs ≠ [] ∧
      _process_queue s = ({ s with workerDone := true }, msgs) ∧
      (_process_queue s).1.queue = s.queue ∧
      (_process_queue s).1.rows = s.rows ∧
      (close (_process_queue s).1).1.queue = s.queue ∧
      ∀ (seed : Fin (2 ^ 122)) (now : String) (req resp : PyVal) s2 d,
        log seed now (_process_queue s).1 req resp = .ok (s2, d) →
        s2.rows = s.rows ∧ (close s2).1.queue = s2.queue := by
  have hlog : ∀ (seed : Fin (2 ^ 122)) (now : String) (req resp : PyVal) s2 d,
      log seed now (_process_queue s).1 req resp = .ok (s2, d) →
      (_process_queue s).1.workerDone = true →
      (_process_queue s).1.rows = s.rows →
      s2.rows = s.rows ∧ (close s2).1.queue = s2.queue := by
    intro seed now req resp s2 d hl hw hr
    rw [log_eq_outcome] at hl
    cases ho : logOutcome seed now req resp <;> rw [ho] at hl
    · cases hl
    · simp only [Except.ok.injEq, Prod.mk.injEq] at hl
      rw [← hl.1]
      refine ⟨hr, ?_⟩
      rw [close]
      simp only [hw, if_pos]
    · simp only [Except.ok.injEq, Prod.mk.injEq] at hl
      rw [← hl.1]
      refine ⟨hr, ?_⟩
      rw [close]
      simp only [hw, if_pos]
  cases hi : s.init with
  | ok => exact absurd hi h
  | connectFail m =>
      refine ⟨["Database connection failed: " ++ m], by simp, ?_, ?_, ?_, ?_, ?_⟩
      · rw [_process_queue, hi]
      · rw [_process_queue, hi]
      · rw [_process_queue, hi]
      · rw [_process_queue, hi]; rfl
      · intro seed now req resp s2 d hl
        exact hlog seed now req resp s2 d hl (by rw [_process_queue, hi])
          (by rw [_process_queue, hi])
  | createFail m =>
      refine ⟨["Failed to create tables: " ++ m,
        "Database connection failed: " ++ m], by simp, ?_, ?_, ?_, ?_, ?_⟩
      · rw [_process_queue, hi]
      · rw [_process_queue, hi]
      · rw [_process_queue, hi]
      · rw [_process_queue, hi]; rfl
      · intro seed now req resp s2 d hl
        exact hlog seed now req resp s2 d hl (by rw [_process_queue, hi])
          (by rw [_process_queue, hi])

/-- Witness for C7 at a concrete state whose connection fails with one
queued record. -/
theorem C7_init_failure_witness :
    ¬(stFail.init = .ok) ∧
    ∃ msgs, msgs ≠ [] ∧
      _process_queue stFail = ({ stFail with workerDone := true }, msgs) ∧
      (_process_queue stFail).1.queue = stFail.queue := by
  refine ⟨by simp [stFail], ?_⟩
  obtain ⟨msgs, hne, heq, hq, -⟩ := C7_init_failure stFail (by simp [stFail])
  exact ⟨msgs, hne, heq, hq⟩

/-- C8 (confirmed).  Calling close a second time after it completed is a
no-op: it raises nothing (the model is a total function), re-joins the
already-finished worker immediately, emits no diagnostics, and returns
the state unchanged. -/
theorem C8_close_idempotent (s : SysState) :
    close (close s).1 = ((close s).1, []) := by
  obtain ⟨q, stp, wd, rows, ini⟩ := s
  cases wd <;> cases ini <;> rfl

/-- C9 (confirmed).  `log` performs no lifecycle-state check: its behaviour
is identical whatever the stop flag and worker state are (same append,
same diagnostics, same exceptions), and an entry enqueued after the worker
has exited is never consumed - a further close leaves the queue as is. -/
theorem C9_log_after_close (seed : Fin (2 ^ 122)) (now : String)
    (s : SysState) (req resp : PyVal) :
    (∀ b w : Bool,
      log seed now { s with stopped := b, workerDone := w } req resp =
        Except.map (fun p => ({ p.1 with stopped := b, workerDone := w }, p.2))
          (log seed now s req resp)) ∧
    (∀ s2 d, s.workerDone = true → log seed now s req resp = .ok (s2, d) →
      (close s2).1.queue = s2.queue) := by
  constructor
  · intro b w
    rw [log_eq_outcome, log_eq_outcome]
    cases logOutcome seed now req resp <;> rfl
  · intro s2 d hw h
    rw [log_eq_outcome] at h
    cases ho : logOutcome seed now req resp <;> rw [ho] at h
    · cases h
    · simp only [Except.ok.injEq, Prod.mk.injEq] at h
      rw [← h.1, close]
      simp only [hw, if_pos]
    · simp only [Except.ok.injEq, Prod.mk.injEq] at h
      rw [← h.1, close]
      simp only [hw, if_pos]

/-- Witness for C9: after closing a fresh logger, a valid `log` call still
appends exactly as before shutdown, and a further close does not consume
the entry. -/
theorem C9_log_after_close_witness :
    (log seed0 "2024-01-01T00:00:00"
        { st0 with stopped := true, workerDone := true } reqEx respEx =
      Except.map
        (fun p => ({ p.1 with stopped := true, workerDone := true }, p.2))
        (log seed0 "2024-01-01T00:00:00" st0 reqEx respEx)) ∧
    ∃ s2 d, SysState.workerDone { st0 with stopped := true, workerDone := true }
        = true ∧
      log seed0 "2024-01-01T00:00:00"
        { st0 with stopped := true, workerDone := true } reqEx respEx
        = .ok (s2, d) ∧
      (close s2).1.queue = s2.queue :=
  ⟨(C9_log_after_close seed0 "2024-01-01T00:00:00" st0 reqEx respEx).1
      true true,
    _, _, rfl, rfl,
    (C9_log_after_close seed0 "2024-01-01T00:00:00"
        { st0 with stopped := true, workerDone := true } reqEx respEx).2
      _ _ rfl rfl⟩

/-- C10 (confirmed).  `log` fails atomically: every non-raising call either
leaves the whole state exactly as it was (all diagnosed failure paths
return before the enqueue step) or appends exactly one entry emitting no
diagnostics - nothing is ever partially enqueued. -/
theorem C10_failure_atomic (seed : Fin (2 ^ 122)) (now : String)
    (s : SysState) (req resp : PyVal) (s2 : SysState) (d : List String)
    (h : log seed now s req resp = .ok (s2, d)) :
    s2 = s ∨ (∃ e, s2 = { s with queue := s.queue ++ [e] } ∧ d = []) := by
  rw [log_eq_outcome] at h
  cases ho : logOutcome seed now req resp <;> rw [ho] at h
  · cases h
  · simp only [Except.ok.injEq, Prod.mk.injEq] at h
    exact Or.inl h.1.symm
  · next entry m =>
      simp only [Except.ok.injEq, Prod.mk.injEq] at h
      obtain ⟨hm, -⟩ := logOutcome_accept _ _ _ _ _ _ ho
      exact Or.inr ⟨entry, h.1.symm, by rw [← h.2, hm]⟩

/-- Witness for C10 at a failing input (response missing every required
key): the state is returned unchanged. -/
theorem C10_failure_atomic_witness :
    ∃ s2 d, log seed0 "2024-01-01T00:00:00" st0 reqEx (.pyDict [])
        = .ok (s2, d) ∧
      (s2 = st0 ∨
        ∃ e, s2 = { st0 with queue := st0.queue ++ [e] } ∧ d = []) :=
  ⟨_, _, rfl,
    C10_failure_atomic seed0 "2024-01-01T00:00:00" st0 reqEx (.pyDict [])
      _ _ rfl⟩

/-- C1 (code bug).  The INSERT statement names six columns including
prompt_tokens, which the schema does not create, and binds only five
parameters, so every insert raises and is logged and dropped by the
worker: after `log` (which does enqueue one entry with no diagnostics)
followed by `close`, the interactions table holds zero rows instead of
the one row the spec promises, and the diagnostic sink holds the sqlite
error; the first conjunct shows the insert fails for every row set and
every entry. -/
theorem C1_insert_schema_mismatch :
    (∀ (rows : List Row) (e : Record), executeInsert rows e =
      .error (.operational "table interactions has no column named prompt_tokens")) ∧
    (log seed0 "2024-01-01T00:00:00" st0 reqEx respEx).map
        (fun p => (p.1.queue.length, p.2, (close p.1).1.rows,
          (close p.1).1.queue, (close p.1).2))
      = .ok (1, [], [], [],
        ["Database error logging interaction: table interactions has no column named prompt_tokens"]) :=
  ⟨fun _ _ => rfl, rfl⟩

/-- C2 (code bug).  `log` can raise to the caller: the string request "1"
is valid JSON, so `_ensure_dict` returns the integer 1 unchecked, and
`validate_interaction`'s `"model" not in 1` raises a TypeError that no
handler in `log` catches. -/
theorem C2_typeError_escapes :
    log seed0 "2024-01-01T00:00:00" st0 (.pyStr "1") respEx =
      .error (.typeError "argument of type is not iterable") := rfl

end LlmLog
